import Mathlib

/-!
Verification development for the pdf-outline-extractor repository.

The Python sources (`main.py`, `src/pdf_processor.py`, `src/structure_detector.py`,
`src/font_analyzer.py`, `src/text_analyzer.py`) are shallowly embedded below:
strings become `List Char`, floats become `ℚ`, dict records become structures,
and the regular expressions of the source are hand-compiled to executable
character-list matchers (ASCII approximations of Python's Unicode case and
whitespace semantics, which coincide on every input considered here).
-/

/-! ## Generic list machinery (stable insertion sort, first-occurrence dedup) -/

/-- Stable insertion: place `e` before the first element `x` with `¬ lt x e`.
With head-first recursion in `stableSort` this reproduces the stability of
Python's `list.sort`. -/
def sortedInsert (lt : α → α → Prop) [DecidableRel lt] (e : α) : List α → List α
  | [] => [e]
  | x :: xs => if lt x e then x :: sortedInsert lt e xs else e :: x :: xs

/-- Stable sort by the strict precedence relation `lt`, modelling Python's
`list.sort` with the corresponding key. -/
def stableSort (lt : α → α → Prop) [DecidableRel lt] : List α → List α
  | [] => []
  | e :: es => sortedInsert lt e (stableSort lt es)

/-- Keys of a Python dict / set in first-insertion order: keep the first
occurrence of each element. -/
def dedupFirstAux [DecidableEq α] (seen : List α) : List α → List α
  | [] => []
  | x :: xs => if x ∈ seen then dedupFirstAux seen xs else x :: dedupFirstAux (x :: seen) xs

def dedupFirst [DecidableEq α] (l : List α) : List α := dedupFirstAux [] l

/-- Number of occurrences of `q` in `l` (`collections.Counter` count). -/
def countQ (l : List ℚ) (q : ℚ) : ℕ := (l.filter (fun r => r = q)).length

/-- `Counter.most_common(1)[0][0]`: among `k :: ks` (keys in first-insertion
order) pick the first key attaining the maximal weight `w`. -/
def pickMax (w : ℚ → ℕ) (k : ℚ) (ks : List ℚ) : ℚ :=
  ks.foldl (fun best k2 => if w best < w k2 then k2 else best) k

/-! ## Character helpers (Python `str` operations, ASCII scope) -/

/-- Python `\s` / `str.strip` whitespace characters (ASCII range). -/
def isWsChar (c : Char) : Bool :=
  c = ' ' || c = '\t' || c = '\n' || c = '\r' || c = '\x0b' || c = '\x0c'

/-- Python `str.lower` (ASCII case mapping). -/
def lowerStr (s : List Char) : List Char := s.map Char.toLower

/-- Python `str.strip()`. -/
def pyStrip (s : List Char) : List Char :=
  ((s.dropWhile isWsChar).reverse.dropWhile isWsChar).reverse

/-- Python `str.count(c)` for a single character. -/
def countChar (c : Char) (s : List Char) : ℕ := (s.filter (fun d => d = c)).length

/-- Consume the literal `pat` from the front of `s` (case-sensitive). -/
def chompLit : List Char → List Char → Option (List Char)
  | [], s => some s
  | _ :: _, [] => none
  | p :: ps, c :: cs => if c = p then chompLit ps cs else none

/-- Consume the literal `pat` (given lowercase) from the front of `s`,
ignoring case, as under `re.IGNORECASE`. -/
def chompLitCI : List Char → List Char → Option (List Char)
  | [], s => some s
  | _ :: _, [] => none
  | p :: ps, c :: cs => if c.toLower = p then chompLitCI ps cs else none

def startsLit (pat s : List Char) : Bool := (chompLit pat s).isSome

/-- `re.search` of a literal: the pattern occurs somewhere in `s`. -/
def containsLit (pat : List Char) : List Char → Bool
  | [] => startsLit pat []
  | c :: cs => startsLit pat (c :: cs) || containsLit pat cs

/-- Maximal-munch `\d*`. -/
def dropDigits : List Char → List Char
  | c :: cs => if c.isDigit then dropDigits cs else c :: cs
  | [] => []

/-- `\d+`: at least one digit, return the rest. -/
def chompDigits : List Char → Option (List Char)
  | c :: cs => if c.isDigit then some (dropDigits cs) else none
  | [] => none

/-- `\s+`: at least one whitespace character, return the rest. -/
def chompWsPlus (s : List Char) : Option (List Char) :=
  match s with
  | c :: cs => if isWsChar c then some (cs.dropWhile isWsChar) else none
  | [] => none

/-- `\.?`: an optional dot. -/
def chompOptDot : List Char → List Char
  | '.' :: r => r
  | s => s

/-- `(\.\d+)*` with maximal munch (the character classes involved are
disjoint, so greedy matching needs no backtracking). Fuel-based structural
recursion; `s.length` fuel always suffices. -/
def chompDotGroupsAux : ℕ → List Char → List Char
  | 0, s => s
  | fuel + 1, '.' :: c :: cs =>
    if c.isDigit then chompDotGroupsAux fuel (dropDigits cs) else '.' :: c :: cs
  | _ + 1, s => s

def chompDotGroups (s : List Char) : List Char := chompDotGroupsAux s.length s

def headUpper (s : List Char) : Bool :=
  match s with
  | c :: _ => c.isUpper
  | [] => false

def headDigit (s : List Char) : Bool :=
  match s with
  | c :: _ => c.isDigit
  | [] => false

def digitAfterWs (r : List Char) : Bool := headDigit (r.dropWhile isWsChar)

def digitAfterWsPlus (r : List Char) : Bool :=
  match chompWsPlus r with
  | some r2 => headDigit r2
  | none => false

/-- Python's `$` matches at the end of the string or just before a final
newline; strip one final newline so that `$` can be treated as end-of-input. -/
def stripFinalNl (s : List Char) : List Char :=
  match s.reverse with
  | '\n' :: r => r.reverse
  | _ => s

def endsWithChar (c : Char) (s : List Char) : Bool :=
  match s.getLast? with
  | some d => d = c
  | none => false

def inRange (lo hi c : Char) : Bool := lo ≤ c && c ≤ hi

/-! ## text_analyzer.py — TextAnalyzer -/

/-- Regex `^(page|p\.)\s*\d+`, IGNORECASE (searched, hence anchored at the
start; the two alternatives are prefix-disjoint). -/
def ntPagePat (s : List Char) : Bool :=
  match chompLitCI "page".toList s with
  | some r => digitAfterWs r
  | none =>
    match chompLitCI "p.".toList s with
    | some r => digitAfterWs r
    | none => false

/-- Regex `^\d+\s*$`: Python's `$` also matches before a final newline, and
`\n` is itself `\s`, so `\s*$` is exactly "the rest is all whitespace". -/
def ntPureNumberPat (s : List Char) : Bool :=
  match s with
  | c :: cs => c.isDigit && (dropDigits cs).all isWsChar
  | [] => false

def genericSectionWords : List (List Char) :=
  ["abstract".toList, "introduction".toList, "conclusion".toList,
   "references".toList, "bibliography".toList]

/-- Regex `^(abstract|introduction|conclusion|references|bibliography)$`, IGNORECASE. -/
def ntSectionPat (s : List Char) : Bool :=
  genericSectionWords.any (fun w => lowerStr (stripFinalNl s) = w)

/-- Regex `^(figure|table|chart)\s*\d*`, IGNORECASE; the tail `\s*\d*`
matches the empty string, so only the word prefix matters. -/
def ntFigurePat (s : List Char) : Bool :=
  (chompLitCI "figure".toList s).isSome || (chompLitCI "table".toList s).isSome ||
    (chompLitCI "chart".toList s).isSome

/-- Regex `@|\.com|\.org|\.edu`, IGNORECASE, searched anywhere. -/
def ntContactPat (s : List Char) : Bool :=
  let ls := lowerStr s
  containsLit "@".toList ls || containsLit ".com".toList ls ||
    containsLit ".org".toList ls || containsLit ".edu".toList ls

/-- Regex `^(copyright|©|\(c\))`, IGNORECASE. -/
def ntCopyrightPat (s : List Char) : Bool :=
  (chompLitCI "copyright".toList s).isSome || (chompLitCI "©".toList s).isSome ||
    (chompLitCI "(c)".toList s).isSome

/-- Regex `^\d{4}$`. -/
def ntYearPat (s : List Char) : Bool :=
  let t := stripFinalNl s
  t.length = 4 && t.all Char.isDigit

/-- Regex `^[a-z\s]{1,3}$`, IGNORECASE: with the flag the class is any ASCII
letter or whitespace. -/
def ntShortAlphaPat (s : List Char) : Bool :=
  let t := stripFinalNl s
  1 ≤ t.length && t.length ≤ 3 && t.all (fun c => c.isAlpha || isWsChar c)

/-- `TextAnalyzer.is_likely_non_title`: strip, try the eight non-title
regexes, then the three extra heuristics (short text, too many periods,
embedded newline). -/
def is_likely_non_title (text : List Char) : Bool :=
  let t := pyStrip text
  ntPagePat t || ntPureNumberPat t || ntSectionPat t || ntFigurePat t ||
    ntContactPat t || ntCopyrightPat t || ntYearPat t || ntShortAlphaPat t ||
    t.length < 3 || countChar '.' t > 3 || countChar '\n' t > 0

/-- Regex `^\d+\.?\s+[A-Z]`. -/
def headingPatNumDot (s : List Char) : Bool :=
  match chompDigits s with
  | some r =>
    match chompWsPlus (chompOptDot r) with
    | some r2 => headUpper r2
    | none => false
  | none => false

/-- Regex `^[A-Z][A-Z\s]{2,}$`: the class contains `\s`, hence also a final
newline, so `$` adds nothing beyond "every remaining char is in the class". -/
def headingPatAllCaps2 (s : List Char) : Bool :=
  match s with
  | c :: t => c.isUpper && 2 ≤ t.length && t.all (fun d => d.isUpper || isWsChar d)
  | [] => false

/-- Regex `^(Chapter|Section|Part)\s+\d+` (case-sensitive). -/
def headingPatChapterWord (s : List Char) : Bool :=
  ["Chapter".toList, "Section".toList, "Part".toList].any (fun w =>
    match chompLit w s with
    | some r => digitAfterWsPlus r
    | none => false)

/-- Regex `^\d+(\.\d+)*\.?\s+`. -/
def headingPatDotted (s : List Char) : Bool :=
  match chompDigits s with
  | some r => (chompWsPlus (chompOptDot (chompDotGroups r))).isSome
  | none => false

def isRomanUpper (c : Char) : Bool := ['I', 'V', 'X', 'L', 'C'].contains c

/-- Regex `^[IVXLC]+\.?\s+[A-Z]` (case-sensitive). -/
def headingPatRoman (s : List Char) : Bool :=
  let (rs, rest) := s.span isRomanUpper
  !rs.isEmpty &&
    (match chompWsPlus (chompOptDot rest) with
     | some r2 => headUpper r2
     | none => false)

/-- Regex `^[A-Z]\.?\s+[A-Z]`. -/
def headingPatLetter (s : List Char) : Bool :=
  match s with
  | c :: r =>
    c.isUpper &&
      (match chompWsPlus (chompOptDot r) with
       | some r2 => headUpper r2
       | none => false)
  | [] => false

def isCjkNumeral (c : Char) : Bool :=
  ['一', '二', '三', '四', '五', '六', '七', '八', '九', '十'].contains c

def isCjkNumOrDigit (c : Char) : Bool := isCjkNumeral c || c.isDigit

/-- Regex `^第[一二三四五六七八九十\d]+章`. -/
def headingPatJaChapter (s : List Char) : Bool :=
  match s with
  | '第' :: r =>
    let (ns, rest) := r.span isCjkNumOrDigit
    !ns.isEmpty && (match rest with | '章' :: _ => true | _ => false)
  | _ => false

/-- Regex `^[一二三四五六七八九十]+[、。]`. -/
def headingPatJaNumeral (s : List Char) : Bool :=
  let (ns, rest) := s.span isCjkNumeral
  !ns.isEmpty && (match rest with | d :: _ => ['、', '。'].contains d | [] => false)

def isJaTextChar (c : Char) : Bool :=
  inRange '぀' 'ゟ' c || inRange '゠' 'ヿ' c || inRange '一' '龯' c

/-- Regex `^[぀-ゟ゠-ヿ一-龯]{1,50}$`. -/
def headingPatJaText (s : List Char) : Bool :=
  let t := stripFinalNl s
  1 ≤ t.length && t.length ≤ 50 && t.all isJaTextChar

/-- Regex `^第[一二三四五六七八九十\d]+[章节部分]`. -/
def headingPatZhChapter (s : List Char) : Bool :=
  match s with
  | '第' :: r =>
    let (ns, rest) := r.span isCjkNumOrDigit
    !ns.isEmpty && (match rest with | d :: _ => ['章', '节', '部', '分'].contains d | [] => false)
  | _ => false

/-- Regex `^제\s*\d+\s*[장절부]`. -/
def headingPatKoChapter (s : List Char) : Bool :=
  match s with
  | '제' :: r =>
    (match chompDigits (r.dropWhile isWsChar) with
     | some rest =>
       (match rest.dropWhile isWsChar with
        | d :: _ => ['장', '절', '부'].contains d
        | [] => false)
     | none => false)
  | _ => false

/-- The eleven `TextAnalyzer.heading_patterns`, in source order. -/
def taHeadingPatternHit (t : List Char) : Bool :=
  headingPatNumDot t || headingPatAllCaps2 t || headingPatChapterWord t ||
    headingPatDotted t || headingPatRoman t || headingPatLetter t ||
    headingPatJaChapter t || headingPatJaNumeral t || headingPatJaText t ||
    headingPatZhChapter t || headingPatKoChapter t

/-- `TextAnalyzer.is_likely_heading`. -/
def is_likely_heading (text : List Char) : Bool :=
  let t := pyStrip text
  if t.length < 2 || t.length > 200 then false
  else if taHeadingPatternHit t then true
  else if headUpper t && t.length ≤ 100 && !endsWithChar '.' t && countChar '.' t ≤ 1 then true
  else endsWithChar '?' t && t.length ≤ 80

/-- `(.+)` after greedy whitespace: the regex group stops at a newline. -/
def restGroup (r : List Char) : List Char := r.takeWhile (fun c => c ≠ '\n')

/-- Regex `^(\d+(?:\.\d+)*)\.?\s+(.+)`: the dotted-number token plus the
remainder. Inputs are pre-stripped by `extract_numbering`, so `\s+` followed
by `(.+)` succeeds exactly when whitespace follows the (optionally dotted)
token and something follows that whitespace. -/
def numPatDotted (t : List Char) : Option (List Char × List Char) :=
  match chompDigits t with
  | none => none
  | some r =>
    let r2 := chompDotGroups r
    let g1 := t.take (t.length - r2.length)
    let r3 := chompOptDot r2
    match r3 with
    | c :: _ =>
      if isWsChar c then
        match r3.dropWhile isWsChar with
        | [] => none
        | r4 => some (g1, restGroup r4)
      else none
    | [] => none

def isRomanCI (c : Char) : Bool :=
  ['I', 'V', 'X', 'L', 'C', 'i', 'v', 'x', 'l', 'c'].contains c

/-- Regex `^([IVXLC]+)\.?\s+(.+)`, IGNORECASE. -/
def numPatRoman (t : List Char) : Option (List Char × List Char) :=
  let (g1, r) := t.span isRomanCI
  if g1.isEmpty then none
  else
    match chompOptDot r with
    | c :: rest =>
      if isWsChar c then
        match rest.dropWhile isWsChar with
        | [] => none
        | r4 => some (g1, restGroup r4)
      else none
    | [] => none

/-- Regex `^([A-Z])\.?\s+(.+)`, IGNORECASE: any single ASCII letter. -/
def numPatLetter (t : List Char) : Option (List Char × List Char) :=
  match t with
  | c0 :: r =>
    if c0.isAlpha then
      match chompOptDot r with
      | c :: rest =>
        if isWsChar c then
          match rest.dropWhile isWsChar with
          | [] => none
          | r4 => some ([c0], restGroup r4)
        else none
      | [] => none
    else none
  | [] => none

/-- Regex `^(第\d+章)\s*(.+)`. -/
def numPatJaChapter (t : List Char) : Option (List Char × List Char) :=
  match t with
  | '第' :: r =>
    (match r.span Char.isDigit with
     | ([], _) => none
     | (ds, rest) =>
       match rest with
       | '章' :: r2 =>
         (match r2.dropWhile isWsChar with
          | [] => none
          | r4 => some ('第' :: ds ++ ['章'], restGroup r4))
       | _ => none)
  | _ => none

/-- Regex `^(Chapter|Section|Part)\s+(\d+)\s*(.+)`, IGNORECASE; the returned
token is `"{group1} {group2}"`. Inputs are pre-stripped by
`extract_numbering`. When the digit run extends to the end of the string,
Python's engine backtracks `(\d+)` by one digit so that `(.+)` can match
that last digit: "Chapter 12" yields groups ("Chapter", "1", "2"), hence
token "Chapter 1" and remainder "2"; with a single digit no give-back is
possible and the pattern fails. -/
def numPatChapterWord (t : List Char) : Option (List Char × List Char) :=
  ["chapter".toList, "section".toList, "part".toList].foldr
    (fun w acc =>
      match chompLitCI w t with
      | some r =>
        (match chompWsPlus r with
         | none => acc
         | some r2 =>
           match r2 with
           | c :: _ =>
             if c.isDigit then
               let r3 := dropDigits r2
               let ds := r2.take (r2.length - r3.length)
               (match r3.dropWhile isWsChar with
                | [] =>
                  (match ds.dropLast, ds.getLast? with
                   | g2 :: g2s, some dLast =>
                     some (t.take w.length ++ ' ' :: g2 :: g2s, restGroup (dLast :: r3))
                   | _, _ => acc)
                | r5 => some (t.take w.length ++ ' ' :: ds, restGroup r5))
             else acc
           | [] => acc)
      | none => acc)
    none

/-- `TextAnalyzer.extract_numbering`: try the five numbering regexes in
order; on failure return `("", stripped text)`. -/
def extract_numbering (text : List Char) : List Char × List Char :=
  let t := pyStrip text
  match numPatDotted t with
  | some p => p
  | none =>
    match numPatRoman t with
    | some p => p
    | none =>
      match numPatLetter t with
      | some p => p
      | none =>
        match numPatJaChapter t with
        | some p => p
        | none =>
          match numPatChapterWord t with
          | some p => p
          | none => ([], t)

def hasKanaChar (s : List Char) : Bool :=
  s.any (fun c => inRange '぀' 'ゟ' c || inRange '゠' 'ヿ' c)

def hasCjkIdeoChar (s : List Char) : Bool := s.any (inRange '一' '鿿')

def hasHangulChar (s : List Char) : Bool := s.any (inRange '가' '힯')

/-- `TextAnalyzer.detect_language`. -/
def detect_language (text : List Char) : String :=
  if hasKanaChar text then "ja"
  else if hasCjkIdeoChar text && !hasKanaChar text then "zh"
  else if hasHangulChar text then "ko"
  else "en"

/-! ## structure_detector.py — StructureDetector -/

/-- A PyMuPDF text span (`size`, `flags`, `text`, `font`). -/
structure Span where
  text : List Char
  size : ℚ
  flags : ℕ
  font : String
deriving DecidableEq

/-- A text block as consumed by `StructureDetector` / `FontAnalyzer`:
`{"text", "page", "spans", "bbox"}` with `bbox = (x0, y0, x1, y1)`. -/
structure TextBlock where
  text : List Char
  page : ℕ
  spans : List Span
  bbox : ℚ × ℚ × ℚ × ℚ
deriving DecidableEq

def bboxY0 (b : TextBlock) : ℚ := b.bbox.2.1

def bboxY1 (b : TextBlock) : ℚ := b.bbox.2.2.2

/-- `flags & 16` (the PyMuPDF bold bit). -/
def hasBoldFlag (flags : ℕ) : Bool := flags / 16 % 2 = 1

/-- `np.mean([span["size"] for span in spans])` (callers guard non-emptiness;
on `[]` this is the junk value `0/0 = 0` of `ℚ`). -/
def meanSpanSize (spans : List Span) : ℚ := (spans.map Span.size).sum / spans.length

/-- The `font_info` dict produced by `FontAnalyzer.analyze_fonts`, reduced to
the single field the scorer reads via `font_info.get("body_font_size", 12)`. -/
structure FontInfo where
  bodyFontSize : ℚ
deriving DecidableEq

/-- `re.search` of `第[一二三四五六七八九十\d]+章` (`ends` generalizes the
final class so the Chinese variant can reuse it). -/
def searchDaiMarker (ends : List Char) : List Char → Bool
  | [] => false
  | c :: r =>
    (c = '第' &&
      (let (ns, rest) := r.span isCjkNumOrDigit
       !ns.isEmpty && (match rest with | d :: _ => ends.contains d | [] => false))) ||
    searchDaiMarker ends r

/-- `re.search` of `[一二三四五六七八九十]+[、。]`. -/
def searchJaEnum : List Char → Bool
  | [] => false
  | c :: r =>
    (isCjkNumeral c &&
      (let (_, rest) := r.span isCjkNumeral
       match rest with | d :: _ => ['、', '。'].contains d | [] => false)) ||
    searchJaEnum r

/-- `re.search` of `제\s*\d+\s*[장절부]`. -/
def searchKoMarker : List Char → Bool
  | [] => false
  | c :: r =>
    (c = '제' &&
      (match chompDigits (r.dropWhile isWsChar) with
       | some rest =>
         (match rest.dropWhile isWsChar with
          | d :: _ => ['장', '절', '부'].contains d
          | [] => false)
       | none => false)) ||
    searchKoMarker r

/-- `StructureDetector._analyze_cjk_patterns`. -/
def analyze_cjk_patterns (text : List Char) : ℚ :=
  let bonus : ℚ :=
    if searchDaiMarker ['章'] text then 3/10
    else if searchJaEnum text then 1/5
    else if searchDaiMarker ['章', '节', '部', '分'] text then 3/10
    else if searchKoMarker text then 3/10
    else 0
  if text.length ≤ 30 && hasCjkIdeoChar text then bonus + 1/10 else bonus

/-- `StructureDetector._is_start_of_section`: a >20pt vertical gap to the
previous block on the same page, or being the (structurally) first block of a
page after page 1. -/
def is_start_of_section (block : TextBlock) (allBlocks : List TextBlock) (blockIdx : ℕ) : Bool :=
  (match blockIdx, allBlocks[blockIdx - 1]? with
   | _ + 1, some prev => block.page = prev.page && bboxY0 block - bboxY1 prev > 20
   | _, _ => false) ||
  (block.page > 1 && (allBlocks.filter (fun b => b.page = block.page)).head? = some block)

/-- `StructureDetector._is_isolated_text`. -/
def is_isolated_text (block : TextBlock) (allBlocks : List TextBlock) (blockIdx : ℕ) : Bool :=
  if block.text.length ≤ 50 then true
  else
    match allBlocks[blockIdx + 1]? with
    | some next =>
      !block.spans.isEmpty && !next.spans.isEmpty &&
        |meanSpanSize block.spans - meanSpanSize next.spans| > 2
    | none => false

/-- The running score of `StructureDetector._calculate_heading_score` just
before the final `max(0.0, min(1.0, score))` clamp; each `let score :=`
mirrors one `score +=` / `score -=` statement of the source. -/
def headingScoreRaw (block : TextBlock) (fontInfo : FontInfo)
    (allBlocks : List TextBlock) (blockIdx : ℕ) : ℚ :=
  let text := block.text
  let score : ℚ := 0
  let score := if is_likely_heading text then score + 2/5 else score
  let score := if is_likely_non_title text then score - 1/2 else score
  let score :=
    if !block.spans.isEmpty then
      let avgSize := meanSpanSize block.spans
      let sizeRel := avgSize / fontInfo.bodyFontSize
      if sizeRel > 6/5 then score + min (3/10) ((sizeRel - 1) * (3/10)) else score
    else score
  let boldSpans := (block.spans.filter (fun sp => hasBoldFlag sp.flags)).length
  let score :=
    if boldSpans > 0 then score + ((boldSpans : ℚ) / block.spans.length) * (1/5) else score
  let score :=
    if 5 ≤ text.length ∧ text.length ≤ 100 then score + 1/5
    else if text.length ≤ 5 then score - 1/5
    else if text.length > 200 then score - 3/10
    else score
  let score := if is_start_of_section block allBlocks blockIdx then score + 1/5 else score
  let score := if (extract_numbering text).1 ≠ [] then score + 3/10 else score
  let score := if is_isolated_text block allBlocks blockIdx then score + 3/20 else score
  let score :=
    if detect_language text ∈ ["ja", "zh", "ko"] then score + analyze_cjk_patterns text
    else score
  score

/-- `StructureDetector._calculate_heading_score`. -/
def calculate_heading_score (block : TextBlock) (fontInfo : FontInfo)
    (allBlocks : List TextBlock) (blockIdx : ℕ) : ℚ :=
  max 0 (min 1 (headingScoreRaw block fontInfo allBlocks blockIdx))

/-- A `StructureDetector.detect_headings` candidate dict. -/
structure HeadingCandidate where
  id : String
  text : List Char
  page : ℕ
  score : ℚ
  font_size : ℚ
  font_weight : String
  position : ℚ
  block_index : ℕ
deriving DecidableEq

def minHeadingScore : ℚ := 3/10

def maxHeadingsPerPage : ℕ := 10

def bumpCount (counts : ℕ → ℕ) (p : ℕ) : ℕ → ℕ :=
  fun q => if q = p then counts q + 1 else counts q

/-- The filtering loop of `StructureDetector._filter_candidates`: `used` is
the `used_texts` set, `counts` the `page_counts` defaultdict. -/
def filterLoop (used : List (List Char)) (counts : ℕ → ℕ) :
    List HeadingCandidate → List HeadingCandidate
  | [] => []
  | c :: rest =>
    let key := lowerStr (pyStrip c.text)
    if key ∈ used then filterLoop used counts rest
    else if maxHeadingsPerPage ≤ counts c.page then filterLoop used counts rest
    else if c.score < minHeadingScore then filterLoop used counts rest
    else c :: filterLoop (key :: used) (bumpCount counts c.page) rest

/-- `StructureDetector._filter_candidates`: sort by score descending
(stable), then dedup, cap per page, and drop low scores in one pass. -/
def filter_candidates (cands : List HeadingCandidate) : List HeadingCandidate :=
  if cands.isEmpty then []
  else filterLoop [] (fun _ => 0) (stableSort (fun a b => b.score < a.score) cands)

/-! ## font_analyzer.py — FontAnalyzer -/

/-- Python `round(x, 1)`, modelled as round-half-up to a tenth (Python's
half-to-even tie handling differs only at exact `.05` ties, which do not
occur in this development). -/
def round1 (q : ℚ) : ℚ := (⌊q * 10 + 1/2⌋ : ℚ) / 10

def allSpans (blocks : List TextBlock) : List Span := blocks.flatMap TextBlock.spans

/-- The list `font_sizes` of `_collect_font_statistics` (rounded span sizes,
in document order). -/
def roundedSpanSizes (blocks : List TextBlock) : List ℚ :=
  (allSpans blocks).map (fun sp => round1 sp.size)

/-- `size_frequency[q]`: total character weight accumulated for rounded size
`q` (`size_frequency[size] += len(span["text"])`). -/
def sizeWeight (blocks : List TextBlock) (q : ℚ) : ℕ :=
  (((allSpans blocks).filter (fun sp => round1 sp.size = q)).map
    (fun sp => sp.text.length)).sum

/-- `font_stats["most_common_size"]`, i.e.
`size_frequency.most_common(1)[0][0] if size_frequency else 12`: the first
key (in insertion order) of maximal accumulated character weight. -/
def mostCommonSize (blocks : List TextBlock) : ℚ :=
  match dedupFirst (roundedSpanSizes blocks) with
  | [] => 12
  | k :: ks => pickMax (sizeWeight blocks) k ks

/-- `FontAnalyzer._estimate_body_font_size` (returns `most_common_size`). -/
def estimate_body_font_size (blocks : List TextBlock) : ℚ := mostCommonSize blocks

/-- `font_stats["unique_sizes"] = sorted(set(font_sizes), reverse=True)`. -/
def faUniqueSizes (blocks : List TextBlock) : List ℚ :=
  stableSort (fun a b => b < a) (dedupFirst (roundedSpanSizes blocks))

/-- One entry of the `_determine_font_hierarchy` result list. -/
structure LevelInfo where
  size : ℚ
  relative_size : ℚ
  suggested_level : ℕ
  size_difference : ℚ
deriving DecidableEq

/-- The `for i, size in enumerate(unique_sizes)` loop of
`_determine_font_hierarchy`, keeping sizes with `size > body_size + 1`. -/
def buildHierarchy (bodySize : ℚ) : List ℚ → ℕ → List LevelInfo
  | [], _ => []
  | sz :: rest, i =>
    if sz > bodySize + 1 then
      ⟨sz, sz / bodySize, min (i + 1) 3, sz - bodySize⟩ :: buildHierarchy bodySize rest (i + 1)
    else buildHierarchy bodySize rest (i + 1)

/-- `FontAnalyzer._determine_font_hierarchy` (composed with the statistics
collection of `_collect_font_statistics`). -/
def determine_font_hierarchy (blocks : List TextBlock) : List LevelInfo :=
  (stableSort (fun a b : LevelInfo => b.size < a.size)
    (buildHierarchy (mostCommonSize blocks) (faUniqueSizes blocks) 0)).take 3

/-! ## pdf_processor.py — PDFProcessor (the pipeline used by main.py) -/

/-- A block dict of `PDFProcessor._extract_page_blocks`:
`{"text", "page", "font_size", "is_bold", "y_pos"}`. -/
structure PdfBlock where
  text : List Char
  page : ℕ
  font_size : ℚ
  is_bold : Bool
  y_pos : ℚ
deriving DecidableEq

/-- `PDFProcessor.skip_patterns[2]`: regex `@|\.com|\.org` (case-sensitive —
unlike the TextAnalyzer variant, no IGNORECASE and no `.edu`). -/
def pdfContactPat (s : List Char) : Bool :=
  containsLit "@".toList s || containsLit ".com".toList s || containsLit ".org".toList s

/-- `PDFProcessor.skip_patterns[3]`: regex `^(copyright|©)`, IGNORECASE. -/
def pdfCopyrightPat (s : List Char) : Bool :=
  (chompLitCI "copyright".toList s).isSome || (chompLitCI "©".toList s).isSome

/-- `any(pattern.search(text) for pattern in self.skip_patterns)`. -/
def pdfSkipHit (t : List Char) : Bool :=
  ntPagePat t || ntPureNumberPat t || pdfContactPat t || pdfCopyrightPat t

/-- `PDFProcessor.heading_patterns[1]`: regex `^\d+(\.\d+)+\.?\s+` (at least
one dotted group, unlike the TextAnalyzer variant). -/
def pdfPatMultiDotted (s : List Char) : Bool :=
  match chompDigits s with
  | none => false
  | some r =>
    match r with
    | '.' :: c :: cs =>
      if c.isDigit then (chompWsPlus (chompOptDot (chompDotGroups (dropDigits cs)))).isSome
      else false
    | _ => false

/-- `PDFProcessor.heading_patterns[2]`: regex `^[A-Z][A-Z\s]{3,}$`. -/
def pdfPatAllCaps3 (s : List Char) : Bool :=
  match s with
  | c :: t => c.isUpper && 3 ≤ t.length && t.all (fun d => d.isUpper || isWsChar d)
  | [] => false

/-- `PDFProcessor.heading_patterns[3]`: regex
`^(Chapter|Section|CHAPTER|SECTION)\s+\d+`, IGNORECASE. -/
def pdfPatChapterCI (s : List Char) : Bool :=
  (match chompLitCI "chapter".toList s with
   | some r => digitAfterWsPlus r
   | none => false) ||
  (match chompLitCI "section".toList s with
   | some r => digitAfterWsPlus r
   | none => false)

/-- `any(pattern.match(text) for pattern in self.heading_patterns)`. -/
def pdfHeadingHit (t : List Char) : Bool :=
  headingPatNumDot t || pdfPatMultiDotted t || pdfPatAllCaps3 t || pdfPatChapterCI t

/-- `body_size = Counter(font_sizes).most_common(1)[0][0]` over the per-block
`font_size` values (callers guard non-emptiness). -/
def pdfBodySize (blocks : List PdfBlock) : ℚ :=
  match dedupFirst (blocks.map PdfBlock.font_size) with
  | [] => 0
  | k :: ks => pickMax (countQ (blocks.map PdfBlock.font_size)) k ks

/-- The per-block score of `PDFProcessor._extract_headings`; each
`let score :=` mirrors one `score +=` statement (`headUpper` of the empty
list is `false`, unreachable because callers require length ≥ 3). -/
def pdfHeadingScore (bodySize : ℚ) (b : PdfBlock) : ℚ :=
  let score : ℚ := 0
  let score := if b.font_size > bodySize + 1 then score + (b.font_size - bodySize) * (1/10) else score
  let score := if b.is_bold then score + 3/10 else score
  let score := if pdfHeadingHit b.text then score + 2/5 else score
  let score := if 5 ≤ b.text.length ∧ b.text.length ≤ 80 then score + 1/5 else score
  let score := if headUpper b.text ∧ ¬endsWithChar '.' b.text then score + 1/10 else score
  score

/-- A candidate dict of `PDFProcessor._extract_headings`. -/
structure PdfCandidate where
  text : List Char
  page : ℕ
  score : ℚ
  font_size : ℚ
deriving DecidableEq

/-- The candidate loop of `PDFProcessor._extract_headings`: length filter,
skip patterns, scoring, threshold `score >= 0.4`. -/
def headingCandidates (blocks : List PdfBlock) : List PdfCandidate :=
  blocks.filterMap (fun b =>
    if b.text.length < 3 ∨ b.text.length > 150 then none
    else if pdfSkipHit b.text then none
    else
      let score := pdfHeadingScore (pdfBodySize blocks) b
      if score ≥ 2/5 then some ⟨b.text, b.page, score, b.font_size⟩ else none)

/-- `candidate["text"].lower().strip()`, the dedup key of
`PDFProcessor._extract_headings`. -/
def pdfDedupKey (t : List Char) : List Char := pyStrip (lowerStr t)

/-- The `seen_texts` dedup loop of `PDFProcessor._extract_headings`:
first occurrence (in candidate order) of each key wins. -/
def pdfDedupLoop (seen : List (List Char)) : List PdfCandidate → List PdfCandidate
  | [] => []
  | c :: rest =>
    if pdfDedupKey c.text ∈ seen then pdfDedupLoop seen rest
    else c :: pdfDedupLoop (pdfDedupKey c.text :: seen) rest

def uniqueCandidates (cands : List PdfCandidate) : List PdfCandidate := pdfDedupLoop [] cands

/-- `unique_candidates.sort(key=lambda x: (-x["score"], x["page"]))`. -/
def sortCandidates (cands : List PdfCandidate) : List PdfCandidate :=
  stableSort (fun a b => b.score < a.score ∨ (a.score = b.score ∧ a.page < b.page)) cands

/-- An entry of the output `"outline"` array. -/
structure OutlineEntry where
  level : String
  text : List Char
  page : ℕ
deriving DecidableEq

/-- `level_names[i]` for the indices `_assign_levels` can produce. -/
def levelName (i : ℕ) : String := if i = 0 then "H1" else if i = 1 then "H2" else "H3"

/-- The `for i, size in enumerate(sorted_sizes[:3])` loop of
`PDFProcessor._assign_levels`: each size group, in candidate order, becomes
entries at the level of its size's rank. -/
def assignGroups (cands : List PdfCandidate) : List ℚ → ℕ → List OutlineEntry
  | [], _ => []
  | sz :: rest, i =>
    (cands.filter (fun c => c.font_size = sz)).map (fun c => ⟨levelName i, c.text, c.page⟩) ++
      assignGroups cands rest (i + 1)

/-- `sorted_sizes = sorted(size_groups.keys(), reverse=True)`. -/
def sortedSizesOf (cands : List PdfCandidate) : List ℚ :=
  stableSort (fun a b => b < a) (dedupFirst (cands.map PdfCandidate.font_size))

def topSizes (cands : List PdfCandidate) : List ℚ := (sortedSizesOf cands).take 3

/-- The `result` list of `PDFProcessor._assign_levels` before the final
`result.sort(key=lambda x: x["page"])`. -/
def assignLevelsPre (cands : List PdfCandidate) : List OutlineEntry :=
  assignGroups cands (topSizes cands) 0

/-- `PDFProcessor._assign_levels`. -/
def assign_levels (cands : List PdfCandidate) : List OutlineEntry :=
  if cands.isEmpty then []
  else stableSort (fun e f : OutlineEntry => e.page < f.page) (assignLevelsPre cands)

/-- `PDFProcessor._extract_headings`. -/
def extract_headings (blocks : List PdfBlock) : List OutlineEntry :=
  if blocks.isEmpty then []
  else assign_levels (sortCandidates (uniqueCandidates (headingCandidates blocks)))

/-- `extract_headings` with the final by-page sort omitted (used to state
what order the final stable sort starts from). -/
def extractHeadingsPre (blocks : List PdfBlock) : List OutlineEntry :=
  if blocks.isEmpty then []
  else assignLevelsPre (sortCandidates (uniqueCandidates (headingCandidates blocks)))

/-- The scan loop of `PDFProcessor._extract_title` over the first ten
page-1 blocks (`best_candidate`, `best_score` accumulators). -/
def titleScan : List PdfBlock → List Char → ℚ → List Char
  | [], best, _ => best
  | b :: rest, best, bestScore =>
    if b.text.length < 5 ∨ b.text.length > 200 then titleScan rest best bestScore
    else if pdfSkipHit b.text then titleScan rest best bestScore
    else
      let score := b.font_size
      let score := if b.is_bold then score * (13/10) else score
      let score := if b.page = 1 then score * (6/5) else score
      if score > bestScore then titleScan rest b.text score
      else titleScan rest best bestScore

/-- `PDFProcessor._extract_title`: metadata title if its stripped form is
non-empty with length strictly between 3 and 150, else the best-scoring of
the first ten page-1 blocks. -/
def extract_title (metaTitle : List Char) (blocks : List PdfBlock) : List Char :=
  let title := pyStrip metaTitle
  if title ≠ [] ∧ title.length > 3 ∧ title.length < 150 then title
  else titleScan ((blocks.filter (fun b => b.page = 1)).take 10) [] 0

/-! ## extract_outline / main.py (I/O modelled: a parsed document is the
metadata title plus the extracted blocks; failure anywhere inside the
per-document `try` is an `Except.error`). -/

structure PdfDocument where
  metaTitle : List Char
  blocks : List PdfBlock

structure OutlineResult where
  title : List Char
  outline : List OutlineEntry
deriving DecidableEq

def extractOutlineCore (doc : PdfDocument) : OutlineResult :=
  ⟨extract_title doc.metaTitle doc.blocks, extract_headings doc.blocks⟩

/-- `PDFProcessor.extract_outline`: the whole body runs under
`try ... except`, returning `{"title": "", "outline": []}` on any failure. -/
def extract_outline (input : Except String PdfDocument) : OutlineResult :=
  match input with
  | Except.ok doc => extractOutlineCore doc
  | Except.error _ => ⟨[], []⟩

/-- The batch loop of `main.process_all_pdfs`: one output file (name and
JSON content) is written per input file, failed documents included (their
own `except` branch writes `{"title": "", "outline": []}`). -/
def process_all_pdfs (files : List (String × Except String PdfDocument)) :
    List (String × OutlineResult) :=
  files.map (fun f => (f.1, extract_outline f.2))

/-! ## Specification-side definitions (transcribed from the spec's words,
to be compared with the source-side definitions above) -/

/-- The additive combination of scoring terms exactly as the specification
lists them for the heading scorer: pattern term, non-title penalty,
font-size term, bold term, length term, section-start term, numbering term,
isolation term, CJK bonus. -/
def headingScoreSpecTerms (block : TextBlock) (fontInfo : FontInfo)
    (allBlocks : List TextBlock) (blockIdx : ℕ) : ℚ :=
  (if is_likely_heading block.text then 2/5 else 0) +
  (if is_likely_non_title block.text then -(1/2) else 0) +
  (if meanSpanSize block.spans / fontInfo.bodyFontSize > 6/5 then
    min (3/10) ((meanSpanSize block.spans / fontInfo.bodyFontSize - 1) * (3/10))
  else 0) +
  (1/5) * (((block.spans.filter (fun sp => hasBoldFlag sp.flags)).length : ℚ) /
    block.spans.length) +
  (if 5 ≤ block.text.length ∧ block.text.length ≤ 100 then 1/5
   else if block.text.length ≤ 5 then -(1/5)
   else if block.text.length > 200 then -(3/10)
   else 0) +
  (if is_start_of_section block allBlocks blockIdx then 1/5 else 0) +
  (if (extract_numbering block.text).1 ≠ [] then 3/10 else 0) +
  (if is_isolated_text block allBlocks blockIdx then 3/20 else 0) +
  (if detect_language block.text ∈ ["ja", "zh", "ko"] then analyze_cjk_patterns block.text
   else 0)

/-- The font-hierarchy size list as the specification words it: the distinct
rounded span sizes strictly greater than `body_size + threshold`, sorted
descending, capped to 3 entries (the spec claims `threshold = 2`, the code
uses `1`). -/
def fontHierarchySpecSizes (threshold : ℚ) (blocks : List TextBlock) : List ℚ :=
  ((faUniqueSizes blocks).filter (fun q => q > mostCommonSize blocks + threshold)).take 3

/-- Rank of a font size among the distinct candidate sizes sorted descending
(`sorted_sizes.index(q)`): rank 0 becomes H1, rank 1 H2, rank 2 H3. -/
def sizeRank (cands : List PdfCandidate) (q : ℚ) : ℕ :=
  (sortedSizesOf cands).indexOf q

/-! ## Concrete inputs used by witnesses and counterexamples -/

/-- One block whose spans have rounded sizes 12 (weight 4) and 13.5
(weight 2): body size 12, hierarchy threshold discriminates 13.5. -/
def hierarchyExampleBlocks : List TextBlock :=
  [⟨"x".toList, 1, [⟨"aaaa".toList, 12, 0, "F"⟩, ⟨"bb".toList, 27/2, 0, "F"⟩], (0, 0, 0, 0)⟩]

/-- Same shape, reused independently for the body-size witness. -/
def bodySizeExampleBlocks : List TextBlock :=
  [⟨"x".toList, 1, [⟨"aaaa".toList, 12, 0, "F"⟩, ⟨"bb".toList, 27/2, 0, "F"⟩], (0, 0, 0, 0)⟩]

/-- Four pdf candidates in three-plus-one font-size groups (20, 16, 13, 11). -/
def levelExampleCands : List PdfCandidate :=
  [⟨"Alpha".toList, 1, 1, 20⟩, ⟨"Beta".toList, 2, 1, 16⟩,
   ⟨"Gamma".toList, 1, 1, 13⟩, ⟨"Delta".toList, 3, 1, 11⟩]

/-- Page-1 blocks where the later block "Alpha Heading" gets the larger font:
the final outline lists it first although "Beta Section" precedes it in the
document. -/
def orderExampleBlocks : List PdfBlock :=
  [⟨"Beta Section".toList, 1, 14, true, 300⟩,
   ⟨"the quick brown fox jumps over the lazy dog.".toList, 1, 14, false, 400⟩,
   ⟨"Alpha Heading".toList, 1, 18, false, 500⟩]

/-- Blocks on distinct pages with dedup-equal texts "OVERVIEW" (score 0.7,
document-first) and "Overview" (score 1.0, later): the first, lower-scoring
one survives. -/
def dedupExampleBlocks : List PdfBlock :=
  [⟨"OVERVIEW".toList, 1, 12, false, 100⟩,
   ⟨"the quick brown fox jumps over the lazy dog.".toList, 1, 12, false, 200⟩,
   ⟨"Overview".toList, 2, 16, true, 50⟩]

/-- A two-file batch: one parsed document and one failing document. -/
def batchExampleFiles : List (String × Except String PdfDocument) :=
  [("good.pdf", Except.ok ⟨"T".toList, []⟩), ("bad.pdf", Except.error "corrupt PDF")]

/-! ## Properties of the generic machinery -/

theorem sortedInsert_perm (lt : α → α → Prop) [DecidableRel lt] (e : α) :
    ∀ l : List α, (sortedInsert lt e l).Perm (e :: l)
  | [] => List.Perm.refl _
  | x :: xs => by
    unfold sortedInsert
    split
    · exact ((sortedInsert_perm lt e xs).cons x).trans (List.Perm.swap e x xs)
    · exact List.Perm.refl _

theorem stableSort_perm (lt : α → α → Prop) [DecidableRel lt] :
    ∀ l : List α, (stableSort lt l).Perm l
  | [] => List.Perm.refl _
  | e :: es =>
    (sortedInsert_perm lt e (stableSort lt es)).trans ((stableSort_perm lt es).cons e)

theorem sortedInsert_pairwise (lt : α → α → Prop) [DecidableRel lt]
    (R : α → α → Prop) (htrans : Transitive R) (e : α)
    (h1 : ∀ x, lt x e → R x e) (h2 : ∀ x, ¬lt x e → R e x) :
    ∀ l : List α, l.Pairwise R → (sortedInsert lt e l).Pairwise R
  | [], _ => List.pairwise_singleton R e
  | x :: xs, hp => by
    unfold sortedInsert
    rcases List.pairwise_cons.mp hp with ⟨hx, hxs⟩
    split
    · rename_i hlt
      refine List.pairwise_cons.mpr ⟨?_, sortedInsert_pairwise lt R htrans e h1 h2 xs hxs⟩
      intro b hb
      rcases List.mem_cons.mp ((List.Perm.mem_iff (sortedInsert_perm lt e xs)).mp hb) with
        rfl | hbxs
      · exact h1 x hlt
      · exact hx b hbxs
    · rename_i hnlt
      refine List.pairwise_cons.mpr ⟨?_, hp⟩
      intro b hb
      rcases List.mem_cons.mp hb with hbe | hbxs
      · rw [hbe]
        exact h2 x hnlt
      · exact htrans (h2 x hnlt) (hx b hbxs)

theorem stableSort_pairwise (lt : α → α → Prop) [DecidableRel lt]
    (R : α → α → Prop) (htrans : Transitive R)
    (hmono : ∀ a b, lt a b → R a b) (htot : ∀ a b, ¬lt a b → R b a) :
    ∀ l : List α, (stableSort lt l).Pairwise R
  | [] => List.Pairwise.nil
  | e :: es =>
    sortedInsert_pairwise lt R htrans e (fun x h => hmono x e h) (fun x h => htot x e h)
      (stableSort lt es) (stableSort_pairwise lt R htrans hmono htot es)

theorem sortedInsert_eq_cons (lt : α → α → Prop) [DecidableRel lt] (e : α)
    (l : List α) (h : ∀ x ∈ l, ¬lt x e) : sortedInsert lt e l = e :: l := by
  cases l with
  | nil => rfl
  | cons x xs =>
    unfold sortedInsert
    rw [if_neg (h x (List.mem_cons_self x xs))]

theorem stableSort_eq_self (lt : α → α → Prop) [DecidableRel lt] :
    ∀ l : List α, l.Pairwise (fun a b => ¬lt b a) → stableSort lt l = l
  | [], _ => rfl
  | e :: es, hp => by
    rcases List.pairwise_cons.mp hp with ⟨he, hes⟩
    unfold stableSort
    rw [stableSort_eq_self lt es hes, sortedInsert_eq_cons lt e es he]

theorem filter_sortedInsert (lt : α → α → Prop) [DecidableRel lt]
    (p : α → Bool) (e : α) (hpe : ∀ x, p e = true → p x = true → ¬lt x e) :
    ∀ l : List α, (sortedInsert lt e l).filter p =
      if p e = true then e :: l.filter p else l.filter p
  | [] => by
    unfold sortedInsert
    by_cases hp : p e = true <;> simp [List.filter, hp]
  | x :: xs => by
    unfold sortedInsert
    by_cases hlt : lt x e
    · rw [if_pos hlt, List.filter_cons, filter_sortedInsert lt p e hpe xs]
      by_cases hp : p e = true
      · have hx : ¬p x = true := fun hx => hpe x hp hx hlt
        simp [hp, hx, List.filter_cons]
      · simp [hp, List.filter_cons]
    · rw [if_neg hlt, List.filter_cons]

theorem filter_stableSort (lt : α → α → Prop) [DecidableRel lt]
    (p : α → Bool) (hpe : ∀ e x, p e = true → p x = true → ¬lt x e) :
    ∀ l : List α, (stableSort lt l).filter p = l.filter p
  | [] => rfl
  | e :: es => by
    unfold stableSort
    rw [filter_sortedInsert lt p e (hpe e) (stableSort lt es),
      filter_stableSort lt p hpe es, List.filter_cons]

theorem mem_dedupFirstAux [DecidableEq α] (x : α) :
    ∀ (seen : List α) (l : List α), x ∈ dedupFirstAux seen l ↔ x ∈ l ∧ x ∉ seen
  | _, [] => by simp [dedupFirstAux]
  | seen, y :: ys => by
    unfold dedupFirstAux
    by_cases hy : y ∈ seen
    · rw [if_pos hy, mem_dedupFirstAux x seen ys]
      constructor
      · rintro ⟨h1, h2⟩
        exact ⟨List.mem_cons_of_mem y h1, h2⟩
      · rintro ⟨h1, h2⟩
        rcases List.mem_cons.mp h1 with rfl | h1
        · exact absurd hy h2
        · exact ⟨h1, h2⟩
    · rw [if_neg hy]
      constructor
      · intro hmem
        rcases List.mem_cons.mp hmem with rfl | hmem
        · exact ⟨List.mem_cons_self _ _, hy⟩
        · rcases (mem_dedupFirstAux x (y :: seen) ys).mp hmem with ⟨h1, h2⟩
          exact ⟨List.mem_cons_of_mem y h1, fun hs => h2 (List.mem_cons_of_mem y hs)⟩
      · rintro ⟨h1, h2⟩
        rcases List.mem_cons.mp h1 with rfl | h1
        · exact List.mem_cons_self _ _
        · by_cases hxy : x = y
          · exact hxy ▸ List.mem_cons_self _ _
          · exact List.mem_cons_of_mem y ((mem_dedupFirstAux x (y :: seen) ys).mpr
              ⟨h1, fun hs => (List.mem_cons.mp hs).elim hxy h2⟩)

theorem mem_dedupFirst [DecidableEq α] (x : α) (l : List α) :
    x ∈ dedupFirst l ↔ x ∈ l := by
  unfold dedupFirst
  rw [mem_dedupFirstAux]
  simp

theorem nodup_dedupFirstAux [DecidableEq α] :
    ∀ (seen : List α) (l : List α), (dedupFirstAux seen l).Nodup
  | _, [] => List.Pairwise.nil
  | seen, y :: ys => by
    unfold dedupFirstAux
    by_cases hy : y ∈ seen
    · rw [if_pos hy]
      exact nodup_dedupFirstAux seen ys
    · rw [if_neg hy]
      refine List.pairwise_cons.mpr ⟨?_, nodup_dedupFirstAux (y :: seen) ys⟩
      intro b hb
      rcases (mem_dedupFirstAux b (y :: seen) ys).mp hb with ⟨_, h2⟩
      exact fun hyb => h2 (hyb ▸ List.mem_cons_self y seen)

theorem nodup_dedupFirst [DecidableEq α] (l : List α) : (dedupFirst l).Nodup :=
  nodup_dedupFirstAux [] l

theorem pickMax_max (w : ℚ → ℕ) :
    ∀ (ks : List ℚ) (k : ℚ),
      w k ≤ w (pickMax w k ks) ∧ ∀ x ∈ ks, w x ≤ w (pickMax w k ks)
  | [], k => ⟨le_refl _, by simp⟩
  | k2 :: ks, k => by
    have hstep : pickMax w k (k2 :: ks) = pickMax w (if w k < w k2 then k2 else k) ks := by
      unfold pickMax
      rw [List.foldl_cons]
    rcases pickMax_max w ks (if w k < w k2 then k2 else k) with ⟨hhead, hrest⟩
    have hk : w k ≤ w (if w k < w k2 then k2 else k) := by
      split
      · rename_i h
        exact le_of_lt h
      · exact le_refl _
    have hk2 : w k2 ≤ w (if w k < w k2 then k2 else k) := by
      split
      · exact le_refl _
      · rename_i h
        exact le_of_not_lt h
    refine ⟨hstep ▸ le_trans hk hhead, ?_⟩
    intro x hx
    rcases List.mem_cons.mp hx with hxe | hxks
    · rw [hxe, hstep]
      exact le_trans hk2 hhead
    · rw [hstep]
      exact hrest x hxks

theorem sizeWeight_eq_zero (blocks : List TextBlock) (q : ℚ)
    (h : q ∉ roundedSpanSizes blocks) : sizeWeight blocks q = 0 := by
  unfold sizeWeight
  have : (allSpans blocks).filter (fun sp => round1 sp.size = q) = [] := by
    apply List.filter_eq_nil.mpr
    intro sp hsp hq
    exact h (List.mem_map.mpr ⟨sp, hsp, by simpa using hq⟩)
  rw [this]
  rfl

/-! ## Claim theorems -/

/-- C3: for every document with at least one span, the estimated body size
(`_estimate_body_font_size`, i.e. `most_common_size`) attains the maximum of
the character-weighted frequency table built from rounded-to-0.1 span sizes:
no font size has a strictly larger accumulated character weight. -/
theorem body_size_is_argmax (blocks : List TextBlock) (hne : allSpans blocks ≠ []) :
    ∀ q : ℚ, sizeWeight blocks q ≤ sizeWeight blocks (estimate_body_font_size blocks) := by
  intro q
  unfold estimate_body_font_size mostCommonSize
  have hsizes : roundedSpanSizes blocks ≠ [] := by
    unfold roundedSpanSizes
    intro h
    exact hne (List.map_eq_nil.mp h)
  rcases hkeys : dedupFirst (roundedSpanSizes blocks) with _ | ⟨k, ks⟩
  · rcases List.exists_mem_of_ne_nil _ hsizes with ⟨x, hx⟩
    have : x ∈ dedupFirst (roundedSpanSizes blocks) := (mem_dedupFirst x _).mpr hx
    rw [hkeys] at this
    exact absurd this (List.not_mem_nil x)
  · by_cases hq : q ∈ roundedSpanSizes blocks
    · have : q ∈ k :: ks := hkeys ▸ (mem_dedupFirst q _).mpr hq
      rcases List.mem_cons.mp this with hqe | hqs
      · exact hqe ▸ (pickMax_max (sizeWeight blocks) ks k).1
      · exact (pickMax_max (sizeWeight blocks) ks k).2 q hqs
    · rw [sizeWeight_eq_zero blocks q hq]
      exact Nat.zero_le _

theorem body_size_is_argmax_witness :
    allSpans bodySizeExampleBlocks ≠ [] ∧
      sizeWeight bodySizeExampleBlocks (27/2) ≤
        sizeWeight bodySizeExampleBlocks (estimate_body_font_size bodySizeExampleBlocks) :=
  ⟨by decide, body_size_is_argmax bodySizeExampleBlocks (by decide) (27/2)⟩

theorem buildHierarchy_sizes (bodySize : ℚ) :
    ∀ (l : List ℚ) (i : ℕ),
      (buildHierarchy bodySize l i).map LevelInfo.size =
        l.filter (fun q => q > bodySize + 1)
  | [], _ => rfl
  | sz :: rest, i => by
    unfold buildHierarchy
    rw [List.filter_cons]
    by_cases h : sz > bodySize + 1
    · rw [if_pos h, List.map_cons, buildHierarchy_sizes bodySize rest (i + 1), if_pos (by simpa using h)]
    · rw [if_neg h, buildHierarchy_sizes bodySize rest (i + 1), if_neg (by simpa using h)]

/-- `sorted(·, reverse=True)` of a duplicate-free list of rationals is
strictly descending. -/
theorem sortDescQ_pairwise (l : List ℚ) (h : l.Nodup) :
    (stableSort (fun a b : ℚ => b < a) l).Pairwise (fun a b => a > b) := by
  have hge : (stableSort (fun a b : ℚ => b < a) l).Pairwise (fun a b => b ≤ a) :=
    stableSort_pairwise (fun a b : ℚ => b < a) (fun a b : ℚ => b ≤ a)
      (fun _ _ _ hab hbc => le_trans hbc hab)
      (fun _ _ hab => le_of_lt hab) (fun _ _ hab => le_of_not_lt hab) l
  have hnd : (stableSort (fun a b : ℚ => b < a) l).Nodup :=
    (List.Perm.nodup_iff (stableSort_perm _ l)).mpr h
  exact (hge.and hnd).imp (fun hab => lt_of_le_of_ne hab.1 (Ne.symm hab.2))

theorem faUniqueSizes_pairwise (blocks : List TextBlock) :
    (faUniqueSizes blocks).Pairwise (fun a b => a > b) :=
  sortDescQ_pairwise _ (nodup_dedupFirst _)

/-- C2 (amended: the code's threshold is `body_size + 1`, not `+ 2`): the
derived font hierarchy consists exactly of the distinct rounded span sizes
strictly greater than `body_size + 1`, sorted descending, capped to 3. -/
theorem font_hierarchy_exact (blocks : List TextBlock) :
    (determine_font_hierarchy blocks).map LevelInfo.size = fontHierarchySpecSizes 1 blocks ∧
      ((determine_font_hierarchy blocks).map LevelInfo.size).Pairwise (fun a b => a > b) ∧
      (determine_font_hierarchy blocks).length ≤ 3 := by
  have hsizes := buildHierarchy_sizes (mostCommonSize blocks) (faUniqueSizes blocks) 0
  have hpair : ((buildHierarchy (mostCommonSize blocks) (faUniqueSizes blocks) 0).map
      LevelInfo.size).Pairwise (fun a b => a > b) := by
    rw [hsizes]
    exact List.Pairwise.sublist (List.filter_sublist _) (faUniqueSizes_pairwise blocks)
  have hself : stableSort (fun a b : LevelInfo => b.size < a.size)
      (buildHierarchy (mostCommonSize blocks) (faUniqueSizes blocks) 0) =
      buildHierarchy (mostCommonSize blocks) (faUniqueSizes blocks) 0 := by
    apply stableSort_eq_self
    exact (List.pairwise_map.mp hpair).imp (fun hab => not_lt_of_gt hab)
  constructor
  · unfold determine_font_hierarchy fontHierarchySpecSizes
    rw [hself, List.map_take, hsizes]
  constructor
  · unfold determine_font_hierarchy
    rw [hself, List.map_take]
    exact List.Pairwise.sublist (List.take_sublist _ _) (hsizes ▸ hpair)
  · unfold determine_font_hierarchy
    rw [hself]
    exact List.length_take_le _ _

/-- C2, counterexample to the claim's `body_size + 2.0` threshold: with body
size 12 and one span size 13.5, the code's hierarchy is `[13.5]` while the
`+2` rule would give `[]`. -/
theorem font_hierarchy_counterexample :
    (determine_font_hierarchy hierarchyExampleBlocks).map LevelInfo.size = [27/2] ∧
      fontHierarchySpecSizes 2 hierarchyExampleBlocks = [] := by
  constructor <;>
    norm_num [determine_font_hierarchy, fontHierarchySpecSizes, buildHierarchy,
      faUniqueSizes, mostCommonSize, dedupFirst, dedupFirstAux, roundedSpanSizes,
      allSpans, round1, sizeWeight, pickMax, stableSort, sortedInsert,
      hierarchyExampleBlocks, List.filter]

theorem indexOf_lt_of_pairwise_gt :
    ∀ l : List ℚ, l.Pairwise (fun a b => a > b) →
      ∀ x ∈ l, ∀ y ∈ l, y < x → l.indexOf x < l.indexOf y
  | [], _, x, hx, _, _, _ => absurd hx (List.not_mem_nil x)
  | h :: t, hp, x, hx, y, hy, hyx => by
    rcases List.pairwise_cons.mp hp with ⟨hh, ht⟩
    by_cases hxh : x = h
    · have hyh : y ≠ h := fun he => absurd hyx (by rw [he, hxh]; exact lt_irrefl h)
      rw [hxh, List.indexOf_cons_self, List.indexOf_cons_ne t (Ne.symm hyh)]
      exact Nat.succ_pos _
    · have hxt : x ∈ t := (List.mem_cons.mp hx).resolve_left hxh
      have hyh : y ≠ h := by
        intro he
        have := hh x hxt
        rw [he] at hyx
        exact absurd (lt_trans hyx this) (lt_irrefl h)
      have hyt : y ∈ t := (List.mem_cons.mp hy).resolve_left hyh
      rw [List.indexOf_cons_ne t (fun he => hxh he.symm),
        List.indexOf_cons_ne t (Ne.symm hyh)]
      exact Nat.succ_lt_succ (indexOf_lt_of_pairwise_gt t ht x hxt y hyt hyx)

theorem sortedSizesOf_pairwise (cands : List PdfCandidate) :
    (sortedSizesOf cands).Pairwise (fun a b => a > b) :=
  sortDescQ_pairwise _ (nodup_dedupFirst _)

theorem sortedSizesOf_nodup (cands : List PdfCandidate) : (sortedSizesOf cands).Nodup :=
  (List.Perm.nodup_iff (stableSort_perm _ _)).mpr (nodup_dedupFirst _)

theorem mem_sortedSizesOf (cands : List PdfCandidate) (q : ℚ) :
    q ∈ sortedSizesOf cands ↔ q ∈ cands.map PdfCandidate.font_size := by
  unfold sortedSizesOf
  rw [List.Perm.mem_iff (stableSort_perm _ _), mem_dedupFirst]

theorem mem_assignGroups (cands : List PdfCandidate) :
    ∀ (sizes : List ℚ) (i : ℕ) (e : OutlineEntry),
      e ∈ assignGroups cands sizes i ↔
        ∃ j, ∃ hj : j < sizes.length, ∃ c ∈ cands,
          c.font_size = sizes.get ⟨j, hj⟩ ∧ e = ⟨levelName (i + j), c.text, c.page⟩
  | [], i, e => by simp [assignGroups]
  | sz :: rest, i, e => by
    unfold assignGroups
    rw [List.mem_append]
    constructor
    · intro hmem
      rcases hmem with hmap | hrec
      · rcases List.mem_map.mp hmap with ⟨c, hcf, hce⟩
        rcases List.mem_filter.mp hcf with ⟨hc, hsz⟩
        refine ⟨0, Nat.succ_pos _, c, hc, by simpa using hsz, ?_⟩
        rw [← hce]
        simp
      · rcases (mem_assignGroups cands rest (i + 1) e).mp hrec with ⟨j, hj, c, hc, hcs, hce⟩
        refine ⟨j + 1, Nat.succ_lt_succ hj, c, hc, by simpa using hcs, ?_⟩
        rw [hce]
        have : i + 1 + j = i + (j + 1) := by omega
        rw [this]
    · rintro ⟨j, hj, c, hc, hcs, hce⟩
      cases j with
      | zero =>
        left
        refine List.mem_map.mpr ⟨c, List.mem_filter.mpr ⟨hc, by simpa using hcs⟩, ?_⟩
        rw [hce]
        simp
      | succ j' =>
        right
        refine (mem_assignGroups cands rest (i + 1) e).mpr
          ⟨j', Nat.lt_of_succ_lt_succ hj, c, hc, by simpa using hcs, ?_⟩
        rw [hce]
        have : i + 1 + j' = i + (j' + 1) := by omega
        rw [this]

theorem filter_length_add (p q : α → Bool) (hdisj : ∀ a, p a = true → q a = true → False) :
    ∀ l : List α,
      (l.filter (fun a => p a || q a)).length = (l.filter p).length + (l.filter q).length
  | [] => rfl
  | x :: xs => by
    simp only [List.filter_cons]
    by_cases hp : p x = true
    · have hq : ¬q x = true := fun hq => hdisj x hp hq
      simp [hp, hq, filter_length_add p q hdisj xs]
      omega
    · by_cases hq : q x = true
      · simp [hp, hq, filter_length_add p q hdisj xs]
        omega
      · simp [hp, hq, filter_length_add p q hdisj xs]

theorem assignGroups_length (cands : List PdfCandidate) :
    ∀ sizes : List ℚ, sizes.Nodup → ∀ i : ℕ,
      (assignGroups cands sizes i).length =
        (cands.filter (fun c => c.font_size ∈ sizes)).length
  | [], _, i => by simp [assignGroups]
  | sz :: rest, hnd, i => by
    rcases List.pairwise_cons.mp hnd with ⟨hsz, hrest⟩
    unfold assignGroups
    rw [List.length_append, List.length_map,
      assignGroups_length cands rest hrest (i + 1)]
    have hcongr : cands.filter (fun c => c.font_size ∈ sz :: rest) =
        cands.filter (fun c => (decide (c.font_size = sz)) || (decide (c.font_size ∈ rest))) := by
      apply List.filter_congr
      intro c _
      simp [List.mem_cons]
    have hdisj : ∀ c : PdfCandidate, decide (c.font_size = sz) = true →
        decide (c.font_size ∈ rest) = true → False := by
      intro c hc1 hc2
      have h1 : c.font_size = sz := by simpa using hc1
      have h2 : c.font_size ∈ rest := by simpa using hc2
      exact hsz _ h2 h1.symm
    rw [hcongr, filter_length_add _ _ hdisj cands]

/-- C4: level assignment is monotonic in font size. For candidates in
distinct font-size groups, a larger group font size yields a numerically
smaller (or equal) level: the size of rank 0 gets H1, rank 1 H2, rank 2 H3
(`levelName`), every produced entry stems from a candidate whose size ranks
among the top 3, every candidate of a top-3 size produces its entry, and
candidates in any group beyond the third largest size are dropped (the
output has exactly one entry per candidate in the top-3 size groups). -/
theorem assign_levels_monotone (cands : List PdfCandidate) :
    (∀ a ∈ cands, ∀ b ∈ cands, b.font_size < a.font_size →
        sizeRank cands a.font_size < sizeRank cands b.font_size) ∧
    (∀ e ∈ assign_levels cands, ∃ c ∈ cands, sizeRank cands c.font_size < 3 ∧
        e.level = levelName (sizeRank cands c.font_size) ∧ e.text = c.text ∧ e.page = c.page) ∧
    (∀ c ∈ cands, sizeRank cands c.font_size < 3 →
        (⟨levelName (sizeRank cands c.font_size), c.text, c.page⟩ : OutlineEntry) ∈
          assign_levels cands) ∧
    (assign_levels cands).length =
      (cands.filter (fun c => c.font_size ∈ topSizes cands)).length := by
  refine ⟨?_, ?_, ?_, ?_⟩
  · intro a ha b hb hba
    exact indexOf_lt_of_pairwise_gt _ (sortedSizesOf_pairwise cands) _
      ((mem_sortedSizesOf _ _).mpr (List.mem_map.mpr ⟨a, ha, rfl⟩)) _
      ((mem_sortedSizesOf _ _).mpr (List.mem_map.mpr ⟨b, hb, rfl⟩)) hba
  · intro e he
    unfold assign_levels at he
    by_cases hemp : cands.isEmpty
    · rw [if_pos hemp] at he
      exact absurd he (List.not_mem_nil e)
    · rw [if_neg hemp] at he
      have he2 : e ∈ assignLevelsPre cands :=
        (List.Perm.mem_iff (stableSort_perm _ _)).mp he
      unfold assignLevelsPre at he2
      rcases (mem_assignGroups cands (topSizes cands) 0 e).mp he2 with ⟨j, hj, c, hc, hcs, hce⟩
      have hjlen : j < (sortedSizesOf cands).length := by
        have : (topSizes cands).length ≤ (sortedSizesOf cands).length := by
          rw [topSizes, List.length_take]
          exact min_le_right _ _
        omega
      have hget : (topSizes cands).get ⟨j, hj⟩ = (sortedSizesOf cands).get ⟨j, hjlen⟩ := by
        simp only [List.get_eq_getElem, topSizes]
        exact List.getElem_take _
      have hrank : sizeRank cands c.font_size = j := by
        rw [sizeRank, hcs, hget, List.get_eq_getElem]
        exact List.indexOf_getElem (sortedSizesOf_nodup cands) j hjlen
      have hj3 : j < 3 := by
        have : (topSizes cands).length ≤ 3 := by
          rw [topSizes, List.length_take]
          exact min_le_left _ _
        omega
      exact ⟨c, hc, hrank ▸ hj3, by rw [hce, hrank]; simp, by rw [hce], by rw [hce]⟩
  · intro c hc hrank
    have hmem : c.font_size ∈ sortedSizesOf cands :=
      (mem_sortedSizesOf _ _).mpr (List.mem_map.mpr ⟨c, hc, rfl⟩)
    have hlt : (sortedSizesOf cands).indexOf c.font_size < (sortedSizesOf cands).length :=
      List.indexOf_lt_length.mpr hmem
    have hrtop : sizeRank cands c.font_size < (topSizes cands).length := by
      rw [topSizes, List.length_take]
      exact lt_min hrank hlt
    have hval : (topSizes cands).get ⟨sizeRank cands c.font_size, hrtop⟩ = c.font_size := by
      simp only [List.get_eq_getElem, topSizes]
      rw [List.getElem_take _]
      exact List.getElem_indexOf hlt
    have hpre : (⟨levelName (0 + sizeRank cands c.font_size), c.text, c.page⟩ : OutlineEntry) ∈
        assignGroups cands (topSizes cands) 0 :=
      (mem_assignGroups cands (topSizes cands) 0 _).mpr
        ⟨sizeRank cands c.font_size, hrtop, c, hc, hval.symm, rfl⟩
    unfold assign_levels
    rw [if_neg (by simp [List.isEmpty_iff]; exact List.ne_nil_of_mem hc)]
    refine (List.Perm.mem_iff (stableSort_perm _ _)).mpr ?_
    unfold assignLevelsPre
    simpa using hpre
  · by_cases hemp : cands.isEmpty
    · have hnil : cands = [] := List.isEmpty_iff.mp hemp
      subst hnil
      simp [assign_levels]
    · unfold assign_levels
      rw [if_neg hemp, List.Perm.length_eq (stableSort_perm _ _)]
      exact assignGroups_length cands (topSizes cands)
        ((List.take_sublist _ _).nodup (sortedSizesOf_nodup cands)) 0

theorem assign_levels_monotone_witness :
    sizeRank levelExampleCands 20 < sizeRank levelExampleCands 16 ∧
      (⟨levelName (sizeRank levelExampleCands 20), "Alpha".toList, 1⟩ : OutlineEntry) ∈
        assign_levels levelExampleCands :=
  ⟨(assign_levels_monotone levelExampleCands).1 ⟨"Alpha".toList, 1, 1, 20⟩ (by decide)
      ⟨"Beta".toList, 2, 1, 16⟩ (by decide) (by decide),
    (assign_levels_monotone levelExampleCands).2.2.1 ⟨"Alpha".toList, 1, 1, 20⟩ (by decide)
      (by decide)⟩

theorem filterLoop_page_bound :
    ∀ (cs : List HeadingCandidate) (used : List (List Char)) (counts : ℕ → ℕ) (p : ℕ),
      counts p ≤ maxHeadingsPerPage →
      ((filterLoop used counts cs).filter (fun c => c.page = p)).length + counts p ≤
        maxHeadingsPerPage
  | [], _, _, p, h => by simpa [filterLoop]
  | c :: rest, used, counts, p, h => by
    unfold filterLoop
    by_cases h1 : lowerStr (pyStrip c.text) ∈ used
    · rw [if_pos h1]
      exact filterLoop_page_bound rest used counts p h
    · rw [if_neg h1]
      by_cases h2 : maxHeadingsPerPage ≤ counts c.page
      · rw [if_pos h2]
        exact filterLoop_page_bound rest used counts p h
      · rw [if_neg h2]
        by_cases h3 : c.score < minHeadingScore
        · rw [if_pos h3]
          exact filterLoop_page_bound rest used counts p h
        · rw [if_neg h3, List.filter_cons]
          by_cases hp : c.page = p
          · rw [if_pos (by simp [hp]), List.length_cons]
            have hbump : bumpCount counts c.page p = counts p + 1 := by
              unfold bumpCount
              rw [if_pos hp.symm]
            have hih := filterLoop_page_bound rest (lowerStr (pyStrip c.text) :: used)
              (bumpCount counts c.page) p (by rw [hbump]; rw [hp] at h2; omega)
            rw [hbump] at hih
            omega
          · rw [if_neg (by simp [hp])]
            have hbump : bumpCount counts c.page p = counts p := by
              unfold bumpCount
              rw [if_neg (fun he => hp he.symm)]
            have hih := filterLoop_page_bound rest (lowerStr (pyStrip c.text) :: used)
              (bumpCount counts c.page) p (by rw [hbump]; exact h)
            rw [hbump] at hih
            exact hih

/-- C7: at most `max_headings_per_page = 10` candidates from any single page
survive `StructureDetector._filter_candidates`; the loop processes the
candidates in descending-score order and drops every further candidate of a
page whose count is exhausted. -/
theorem filter_candidates_page_cap (cands : List HeadingCandidate) (p : ℕ) :
    ((filter_candidates cands).filter (fun c => c.page = p)).length ≤ 10 := by
  unfold filter_candidates
  by_cases hemp : cands.isEmpty
  · rw [if_pos hemp]
    simp
  · rw [if_neg hemp]
    have hb := filterLoop_page_bound (stableSort (fun a b => b.score < a.score) cands) []
      (fun _ => 0) p (Nat.zero_le _)
    have hmax : maxHeadingsPerPage = 10 := rfl
    omega

theorem pdfDedupLoop_keys :
    ∀ (l : List PdfCandidate) (seen : List (List Char)),
      (pdfDedupLoop seen l).Pairwise
          (fun a b => pdfDedupKey a.text ≠ pdfDedupKey b.text) ∧
        ∀ c ∈ pdfDedupLoop seen l,
          pdfDedupKey c.text ∉ seen ∧
            l.find? (fun d => pdfDedupKey d.text == pdfDedupKey c.text) = some c
  | [], seen => ⟨List.Pairwise.nil, fun c hc => absurd hc (List.not_mem_nil c)⟩
  | d :: rest, seen => by
    unfold pdfDedupLoop
    by_cases hk : pdfDedupKey d.text ∈ seen
    · rw [if_pos hk]
      rcases pdfDedupLoop_keys rest seen with ⟨hp, hmem⟩
      refine ⟨hp, fun c hc => ?_⟩
      rcases hmem c hc with ⟨hns, hfind⟩
      refine ⟨hns, ?_⟩
      have hne : pdfDedupKey d.text ≠ pdfDedupKey c.text := fun he => hns (he ▸ hk)
      rw [List.find?_cons_of_neg _ (by simpa using hne)]
      exact hfind
    · rw [if_neg hk]
      rcases pdfDedupLoop_keys rest (pdfDedupKey d.text :: seen) with ⟨hp, hmem⟩
      constructor
      · refine List.pairwise_cons.mpr ⟨?_, hp⟩
        intro c hc
        rcases hmem c hc with ⟨hns, _⟩
        exact fun he => hns (he ▸ List.mem_cons_self _ _)
      · intro c hc
        rcases List.mem_cons.mp hc with rfl | hc2
        · exact ⟨hk, List.find?_cons_of_pos _ (by simp)⟩
        · rcases hmem c hc2 with ⟨hns, hfind⟩
          have hnd : pdfDedupKey d.text ≠ pdfDedupKey c.text := by
            intro he
            exact hns (he ▸ List.mem_cons_self _ _)
          refine ⟨fun hs => hns (List.mem_cons_of_mem _ hs), ?_⟩
          rw [List.find?_cons_of_neg _ (by simpa using hnd)]
          exact hfind

theorem assignGroups_provenance (cands : List PdfCandidate) (sizes : List ℚ) (i : ℕ)
    (e : OutlineEntry) (he : e ∈ assignGroups cands sizes i) :
    ∃ c ∈ cands, c.font_size ∈ sizes ∧ e.text = c.text ∧ e.page = c.page := by
  rcases (mem_assignGroups cands sizes i e).mp he with ⟨j, hj, c, hc, hcs, hce⟩
  exact ⟨c, hc, hcs ▸ (sizes.get_mem _ _), by rw [hce], by rw [hce]⟩

theorem assignGroups_keys_pairwise (cands : List PdfCandidate)
    (hc : cands.Pairwise (fun a b => pdfDedupKey a.text ≠ pdfDedupKey b.text)) :
    ∀ sizes : List ℚ, sizes.Nodup → ∀ i : ℕ,
      (assignGroups cands sizes i).Pairwise
        (fun e1 e2 => pdfDedupKey e1.text ≠ pdfDedupKey e2.text)
  | [], _, _ => List.Pairwise.nil
  | sz :: rest, hnd, i => by
    rcases List.pairwise_cons.mp hnd with ⟨hsz, hrest⟩
    unfold assignGroups
    rw [List.pairwise_append]
    refine ⟨?_, assignGroups_keys_pairwise cands hc rest hrest (i + 1), ?_⟩
    · rw [List.pairwise_map]
      exact List.Pairwise.sublist (List.filter_sublist _) hc
    · intro e1 he1 e2 he2
      rcases List.mem_map.mp he1 with ⟨c1, hc1f, hc1e⟩
      rcases List.mem_filter.mp hc1f with ⟨hc1, hc1sz⟩
      rcases assignGroups_provenance cands rest (i + 1) e2 he2 with ⟨c2, hc2, hc2sz, hc2t, _⟩
      have hne : c1 ≠ c2 := by
        intro he
        have h1 : c1.font_size = sz := by simpa using hc1sz
        rw [he] at h1
        exact hsz _ (h1 ▸ hc2sz) rfl
      have hkey : pdfDedupKey c1.text ≠ pdfDedupKey c2.text :=
        List.Pairwise.forall (fun x y h => Ne.symm h) hc hc1 hc2 hne
      rw [← hc1e, hc2t]
      exact hkey

/-- C6 (amended: the dedup loop of `PDFProcessor._extract_headings` runs
before the score sort, so the first candidate in document order wins, not
the highest-scoring one): any two candidates whose case-folded trimmed texts
coincide yield at most one outline entry, and every entry's text and page
are those of the first candidate (in document order) carrying its dedup
key — even when the duplicates' pages differ. -/
theorem extract_headings_dedup (blocks : List PdfBlock) :
    (extract_headings blocks).Pairwise
        (fun e1 e2 => pdfDedupKey e1.text ≠ pdfDedupKey e2.text) ∧
      ∀ e ∈ extract_headings blocks, ∃ c,
        (headingCandidates blocks).find?
            (fun d => pdfDedupKey d.text == pdfDedupKey e.text) = some c ∧
          e.text = c.text ∧ e.page = c.page := by
  rcases pdfDedupLoop_keys (headingCandidates blocks) [] with ⟨hup, humem⟩
  have hsorted : (sortCandidates (uniqueCandidates (headingCandidates blocks))).Pairwise
      (fun a b => pdfDedupKey a.text ≠ pdfDedupKey b.text) :=
    ((stableSort_perm _ _).pairwise_iff (fun h => Ne.symm h)).mpr hup
  constructor
  · unfold extract_headings
    by_cases hemp : blocks.isEmpty
    · rw [if_pos hemp]
      exact List.Pairwise.nil
    · rw [if_neg hemp]
      unfold assign_levels
      by_cases hce : (sortCandidates (uniqueCandidates (headingCandidates blocks))).isEmpty
      · rw [if_pos hce]
        exact List.Pairwise.nil
      · rw [if_neg hce]
        refine ((stableSort_perm _ _).pairwise_iff (fun h => Ne.symm h)).mpr ?_
        unfold assignLevelsPre
        exact assignGroups_keys_pairwise _ hsorted _
          ((List.take_sublist _ _).nodup (sortedSizesOf_nodup _)) 0
  · intro e he
    unfold extract_headings at he
    by_cases hemp : blocks.isEmpty
    · rw [if_pos hemp] at he
      exact absurd he (List.not_mem_nil e)
    · rw [if_neg hemp] at he
      unfold assign_levels at he
      by_cases hce : (sortCandidates (uniqueCandidates (headingCandidates blocks))).isEmpty
      · rw [if_pos hce] at he
        exact absurd he (List.not_mem_nil e)
      · rw [if_neg hce] at he
        have he2 := (List.Perm.mem_iff (stableSort_perm _ _)).mp he
        unfold assignLevelsPre at he2
        rcases assignGroups_provenance _ _ _ e he2 with ⟨c, hcs, _, hct, hcp⟩
        have hcu : c ∈ uniqueCandidates (headingCandidates blocks) :=
          (List.Perm.mem_iff (stableSort_perm _ _)).mp hcs
        rcases humem c hcu with ⟨_, hfind⟩
        refine ⟨c, ?_, hct, hcp⟩
        rw [hct]
        exact hfind

/-- C5 (amended: the final sort of `_assign_levels` is a stable sort by page
of the level-assignment order, not of document order): the final outline is
sorted by non-decreasing page number, and the entries on any fixed page
appear in the relative order produced by level assignment (H1 group first,
then H2, then H3; within a group, descending candidate score) — not in
original document order. -/
theorem extract_headings_page_order (blocks : List PdfBlock) (p : ℕ) :
    (extract_headings blocks).Pairwise (fun e1 e2 => e1.page ≤ e2.page) ∧
      (extract_headings blocks).filter (fun e => e.page = p) =
        (extractHeadingsPre blocks).filter (fun e => e.page = p) := by
  constructor
  · unfold extract_headings
    by_cases hemp : blocks.isEmpty
    · rw [if_pos hemp]
      exact List.Pairwise.nil
    · rw [if_neg hemp]
      unfold assign_levels
      by_cases hce : (sortCandidates (uniqueCandidates (headingCandidates blocks))).isEmpty
      · rw [if_pos hce]
        exact List.Pairwise.nil
      · rw [if_neg hce]
        exact stableSort_pairwise (fun e f : OutlineEntry => e.page < f.page)
          (fun e1 e2 => e1.page ≤ e2.page) (fun _ _ _ h1 h2 => le_trans h1 h2)
          (fun _ _ h => le_of_lt h) (fun _ _ h => le_of_not_lt h) _
  · unfold extract_headings extractHeadingsPre
    by_cases hemp : blocks.isEmpty
    · rw [if_pos hemp, if_pos hemp]
    · rw [if_neg hemp, if_neg hemp]
      unfold assign_levels
      by_cases hce : (sortCandidates (uniqueCandidates (headingCandidates blocks))).isEmpty
      · rw [if_pos hce, List.isEmpty_iff.mp hce]
        rfl
      · rw [if_neg hce]
        apply filter_stableSort
        intro e x he hx
        have h1 : e.page = p := by simpa using he
        have h2 : x.page = p := by simpa using hx
        rw [h1, h2]
        exact lt_irrefl p

set_option maxHeartbeats 2000000 in
theorem orderExampleBodySize : pdfBodySize orderExampleBlocks = 14 := by
  norm_num [pdfBodySize, orderExampleBlocks, dedupFirst, dedupFirstAux, pickMax, countQ,
    List.filter]

set_option maxHeartbeats 2000000 in
theorem orderExampleCandidates : headingCandidates orderExampleBlocks =
    [⟨"Beta Section".toList, 1, 3/5, 14⟩, ⟨"Alpha Heading".toList, 1, 7/10, 18⟩] := by
  have hA := orderExampleBodySize
  simp only [headingCandidates, hA]
  norm_num +decide [orderExampleBlocks, pdfHeadingScore, pdfSkipHit,
    ntPagePat, ntPureNumberPat, pdfContactPat, pdfCopyrightPat, pdfHeadingHit,
    headingPatNumDot, pdfPatMultiDotted, pdfPatAllCaps3, pdfPatChapterCI,
    chompLit, chompLitCI, chompDigits, dropDigits, chompWsPlus, chompOptDot,
    chompDotGroups, chompDotGroupsAux, containsLit, startsLit, headUpper, headDigit,
    digitAfterWs, digitAfterWsPlus, isWsChar, lowerStr, pyStrip, endsWithChar,
    List.filterMap]

set_option maxHeartbeats 2000000 in
theorem orderExampleHeadings : extract_headings orderExampleBlocks =
    [⟨"H1", "Alpha Heading".toList, 1⟩, ⟨"H2", "Beta Section".toList, 1⟩] := by
  have hB := orderExampleCandidates
  simp only [extract_headings, hB]
  norm_num +decide [orderExampleBlocks, uniqueCandidates, pdfDedupLoop, pdfDedupKey,
    sortCandidates, stableSort, sortedInsert, assign_levels, assignLevelsPre, assignGroups,
    sortedSizesOf, topSizes, dedupFirst, dedupFirstAux, levelName, lowerStr, pyStrip,
    isWsChar, List.filter]

/-- C5, counterexample to "entries on the same page appear in original
document order": on `orderExampleBlocks` both outline entries are on page 1,
yet "Alpha Heading" is listed before "Beta Section" although the document
contains "Beta Section" first. -/
theorem extract_headings_page_order_counterexample :
    (extract_headings orderExampleBlocks).map OutlineEntry.text =
        ["Alpha Heading".toList, "Beta Section".toList] ∧
      (extract_headings orderExampleBlocks).map OutlineEntry.page = [1, 1] ∧
      orderExampleBlocks.map PdfBlock.text =
        ["Beta Section".toList,
         "the quick brown fox jumps over the lazy dog.".toList,
         "Alpha Heading".toList] := by
  refine ⟨?_, ?_, rfl⟩
  · rw [orderExampleHeadings]
    rfl
  · rw [orderExampleHeadings]
    rfl

set_option maxHeartbeats 2000000 in
theorem dedupExampleBodySize : pdfBodySize dedupExampleBlocks = 12 := by
  norm_num [pdfBodySize, dedupExampleBlocks, dedupFirst, dedupFirstAux, pickMax, countQ,
    List.filter]

set_option maxHeartbeats 2000000 in
theorem dedupExampleCandidates : headingCandidates dedupExampleBlocks =
    [⟨"OVERVIEW".toList, 1, 7/10, 12⟩, ⟨"Overview".toList, 2, 1, 16⟩] := by
  have hA := dedupExampleBodySize
  simp only [headingCandidates, hA]
  norm_num +decide [dedupExampleBlocks, pdfHeadingScore, pdfSkipHit,
    ntPagePat, ntPureNumberPat, pdfContactPat, pdfCopyrightPat, pdfHeadingHit,
    headingPatNumDot, pdfPatMultiDotted, pdfPatAllCaps3, pdfPatChapterCI,
    chompLit, chompLitCI, chompDigits, dropDigits, chompWsPlus, chompOptDot,
    chompDotGroups, chompDotGroupsAux, containsLit, startsLit, headUpper, headDigit,
    digitAfterWs, digitAfterWsPlus, isWsChar, lowerStr, pyStrip, endsWithChar,
    List.filterMap]

set_option maxHeartbeats 2000000 in
theorem dedupExampleHeadings : extract_headings dedupExampleBlocks =
    [⟨"H1", "OVERVIEW".toList, 1⟩] := by
  have hB := dedupExampleCandidates
  simp only [extract_headings, hB]
  norm_num +decide [dedupExampleBlocks, uniqueCandidates, pdfDedupLoop, pdfDedupKey,
    sortCandidates, stableSort, sortedInsert, assign_levels, assignLevelsPre, assignGroups,
    sortedSizesOf, topSizes, dedupFirst, dedupFirstAux, levelName, lowerStr, pyStrip,
    isWsChar, List.filter]

/-- C6, counterexample to "only the highest-scoring duplicate appears": on
`dedupExampleBlocks` the candidates "OVERVIEW" (score 0.7) and "Overview"
(score 1.0) share the dedup key, yet the final output keeps the earlier,
lower-scoring "OVERVIEW" and drops the higher-scoring "Overview". -/
theorem extract_headings_dedup_counterexample :
    headingCandidates dedupExampleBlocks =
        [⟨"OVERVIEW".toList, 1, 7/10, 12⟩, ⟨"Overview".toList, 2, 1, 16⟩] ∧
      pdfDedupKey "OVERVIEW".toList = pdfDedupKey "Overview".toList ∧
      (7/10 : ℚ) < 1 ∧
      extract_headings dedupExampleBlocks = [⟨"H1", "OVERVIEW".toList, 1⟩] :=
  ⟨dedupExampleCandidates, by decide, by norm_num, dedupExampleHeadings⟩

theorem extract_headings_dedup_witness :
    ∃ c, (headingCandidates dedupExampleBlocks).find?
        (fun d => pdfDedupKey d.text ==
          pdfDedupKey ((⟨"H1", "OVERVIEW".toList, 1⟩ : OutlineEntry).text)) = some c ∧
      (⟨"H1", "OVERVIEW".toList, 1⟩ : OutlineEntry).text = c.text ∧
      (⟨"H1", "OVERVIEW".toList, 1⟩ : OutlineEntry).page = c.page :=
  (extract_headings_dedup dedupExampleBlocks).2 ⟨"H1", "OVERVIEW".toList, 1⟩
    (by rw [dedupExampleHeadings]; exact List.mem_singleton.mpr rfl)

/-- C8: a document whose per-document processing fails yields exactly
`{"title": "", "outline": []}` instead of a propagated exception, the batch
writes one output file per input file (same names, same order), and a
failing document's file carries the empty result — the batch continues past
it. -/
theorem extract_outline_contains_failures (files : List (String × Except String PdfDocument)) :
    (∀ err : String, extract_outline (Except.error err) = ⟨[], []⟩) ∧
      (process_all_pdfs files).map Prod.fst = files.map Prod.fst ∧
      ∀ (name : String) (err : String), (name, Except.error err) ∈ files →
        (name, (⟨[], []⟩ : OutlineResult)) ∈ process_all_pdfs files := by
  refine ⟨fun _ => rfl, ?_, ?_⟩
  · unfold process_all_pdfs
    rw [List.map_map]
    rfl
  · intro name err hmem
    unfold process_all_pdfs
    exact List.mem_map.mpr ⟨(name, Except.error err), hmem, rfl⟩

theorem extract_outline_contains_failures_witness :
    ("bad.pdf", (⟨[], []⟩ : OutlineResult)) ∈ process_all_pdfs batchExampleFiles :=
  (extract_outline_contains_failures batchExampleFiles).2.2 "bad.pdf" "corrupt PDF"
    (by simp [batchExampleFiles])

/-- C9 (amended: the metadata title takes precedence even when no text was
extracted): a document with zero extracted text blocks yields an empty
outline, and its title is the stripped metadata title when that is non-empty
with length strictly between 3 and 150, else the empty string. -/
theorem empty_document_output (metaTitle : List Char) :
    extract_headings [] = [] ∧
      extract_title metaTitle [] =
        (if pyStrip metaTitle ≠ [] ∧ (pyStrip metaTitle).length > 3 ∧
            (pyStrip metaTitle).length < 150 then pyStrip metaTitle else []) := by
  exact ⟨rfl, rfl⟩

/-- C9, counterexample to "the output is exactly `{"title": "", "outline":
[]}`": a document with zero text blocks but metadata title "Annual Report"
keeps that title. -/
theorem empty_document_output_counterexample :
    extractOutlineCore ⟨"Annual Report".toList, []⟩ =
        ⟨"Annual Report".toList, []⟩ ∧
      "Annual Report".toList ≠ ([] : List Char) := by
  constructor <;> decide

theorem countChar_dropWhile_ws (c : Char) (h : isWsChar c = false) :
    ∀ s : List Char, countChar c (s.dropWhile isWsChar) = countChar c s
  | [] => rfl
  | d :: rest => by
    rw [List.dropWhile_cons]
    by_cases hd : isWsChar d = true
    · rw [if_pos hd, countChar_dropWhile_ws c h rest]
      have hdc : ¬(d = c) := fun he => by
        rw [he, h] at hd
        exact Bool.false_ne_true hd
      unfold countChar
      rw [List.filter_cons, if_neg (by simpa using hdc)]
    · rw [if_neg hd]

theorem countChar_reverse (c : Char) (s : List Char) :
    countChar c s.reverse = countChar c s := by
  unfold countChar
  rw [List.filter_reverse, List.length_reverse]

theorem countChar_pyStrip (c : Char) (h : isWsChar c = false) (s : List Char) :
    countChar c (pyStrip s) = countChar c s := by
  unfold pyStrip
  rw [countChar_reverse, countChar_dropWhile_ws c h, countChar_reverse,
    countChar_dropWhile_ws c h]

/-- C10 (amended: the three extra heuristics of `is_likely_non_title` apply
to the whitespace-stripped text, so the newline clause concerns newlines
surviving the strip — a trailing newline does not trigger it): any string
whose stripped length is below 3, any string with more than three `.`
characters, and any string whose stripped form still contains a newline is
classified as non-title, regardless of content. -/
theorem is_likely_non_title_heuristics (s : List Char) :
    ((pyStrip s).length < 3 → is_likely_non_title s = true) ∧
      (countChar '.' s > 3 → is_likely_non_title s = true) ∧
      ('\n' ∈ pyStrip s → is_likely_non_title s = true) := by
  refine ⟨?_, ?_, ?_⟩
  · intro h
    have hd : decide ((pyStrip s).length < 3) = true := decide_eq_true h
    simp [is_likely_non_title, hd]
  · intro h
    have h2 : countChar '.' (pyStrip s) > 3 := by
      rw [countChar_pyStrip '.' (by decide)]
      exact h
    have hd : decide (countChar '.' (pyStrip s) > 3) = true := decide_eq_true h2
    simp [is_likely_non_title, hd]
  · intro h
    have h3 : countChar '\n' (pyStrip s) > 0 := by
      unfold countChar
      have hm : '\n' ∈ (pyStrip s).filter (fun d => d = '\n') :=
        List.mem_filter.mpr ⟨h, by simp⟩
      exact List.length_pos.mpr (List.ne_nil_of_mem hm)
    have hd : decide (countChar '\n' (pyStrip s) > 0) = true := decide_eq_true h3
    simp [is_likely_non_title, hd]

theorem is_likely_non_title_heuristics_witness :
    is_likely_non_title "ab".toList = true ∧
      is_likely_non_title "a.b.c.d.e".toList = true ∧
      is_likely_non_title "x\ny is long".toList = true :=
  ⟨(is_likely_non_title_heuristics "ab".toList).1 (by decide),
   (is_likely_non_title_heuristics "a.b.c.d.e".toList).2.1 (by decide),
   (is_likely_non_title_heuristics "x\ny is long".toList).2.2 (by decide)⟩

/-- C10, counterexample to "true for every string containing a newline":
"Hello\n" contains a newline, yet `is_likely_non_title` returns `false`
because the trailing newline is stripped before the heuristics run. -/
theorem is_likely_non_title_newline_counterexample :
    '\n' ∈ "Hello\n".toList ∧ is_likely_non_title "Hello\n".toList = false := by
  constructor <;> decide

theorem ite_add_shift (c : Prop) [Decidable c] (s a : ℚ) :
    (if c then s + a else s) = s + (if c then a else 0) := by
  split <;> simp

theorem ite_sub_shift (c : Prop) [Decidable c] (s a : ℚ) :
    (if c then s - a else s) = s + (if c then -a else 0) := by
  split <;> simp [sub_eq_add_neg]

theorem ite_len_shift (c1 c2 c3 : Prop) [Decidable c1] [Decidable c2] [Decidable c3]
    (s a b d : ℚ) :
    (if c1 then s + a else if c2 then s - b else if c3 then s - d else s) =
      s + (if c1 then a else if c2 then -b else if c3 then -d else 0) := by
  split_ifs <;> ring

set_option maxHeartbeats 1000000 in
theorem headingScoreRaw_eq_spec (b : TextBlock) (fi : FontInfo)
    (all : List TextBlock) (i : ℕ) :
    headingScoreRaw b fi all i = headingScoreSpecTerms b fi all i := by
  unfold headingScoreRaw headingScoreSpecTerms
  rcases eq_or_ne b.spans [] with hsp | hsp
  · rw [hsp]
    simp only [meanSpanSize, List.map_nil, List.sum_nil, List.length_nil, List.filter_nil,
      Nat.cast_zero, zero_div, List.isEmpty_nil, Bool.not_true, Bool.false_eq_true, if_false,
      ite_add_shift, ite_sub_shift, ite_len_shift, gt_iff_lt, lt_irrefl, mul_zero]
    norm_num
    split_ifs <;> ring
  · have hne : b.spans.isEmpty = false := by
      cases hsp2 : b.spans with
      | nil => exact absurd hsp2 hsp
      | cons x xs => rfl
    simp only [hne, Bool.not_false, if_true]
    rcases Nat.eq_zero_or_pos ((b.spans.filter (fun sp => hasBoldFlag sp.flags)).length) with
      hb | hb
    · simp only [hb, lt_irrefl, if_false, Nat.cast_zero, zero_div, mul_zero,
        ite_add_shift, ite_sub_shift, ite_len_shift]
      norm_num
      split_ifs <;> ring
    · simp only [ite_add_shift, ite_sub_shift, ite_len_shift]
      rw [if_pos hb]
      norm_num
      split_ifs <;> ring

/-- C1: for every text block, `_calculate_heading_score` returns a value in
`[0, 1]`, and that value equals the clamp to `[0, 1]` of the additive
combination of the nine scoring terms exactly as the specification lists
them (`headingScoreSpecTerms`): +0.4 heading pattern, −0.5 non-title,
`min(0.3, (r−1)·0.3)` for size ratio `r > 1.2` else 0, 0.2 × bold-span
fraction, the length term, +0.2 section start, +0.3 numbering, +0.15
isolation, and the CJK bonus for detected language ja/zh/ko. -/
theorem calculate_heading_score_spec (block : TextBlock) (fontInfo : FontInfo)
    (allBlocks : List TextBlock) (blockIdx : ℕ) :
    calculate_heading_score block fontInfo allBlocks blockIdx =
        max 0 (min 1 (headingScoreSpecTerms block fontInfo allBlocks blockIdx)) ∧
      0 ≤ calculate_heading_score block fontInfo allBlocks blockIdx ∧
      calculate_heading_score block fontInfo allBlocks blockIdx ≤ 1 := by
  refine ⟨?_, ?_, ?_⟩
  · unfold calculate_heading_score
    rw [headingScoreRaw_eq_spec]
  · unfold calculate_heading_score
    exact le_max_left 0 _
  · unfold calculate_heading_score
    exact max_le (by norm_num) (min_le_left 1 _)
